import Mathlib

/-
A shallow embedding of the gomvcc in-memory MVCC engine (main.go) and proofs
about its visibility, conflict-detection, and command-execution logic.

Modelling conventions:
- Go `uint64` transaction ids become `Nat` (ids only increment and compare;
  no arithmetic that can wrap is performed on them).
- `btree.Map`/`btree.Set` become sorted association lists / sorted lists;
  `Iter.Seek(k)` (move to first item greater-or-equal to `k`) becomes
  `List.find?` of the first element `≥ k`, which agrees with the btree on the
  sorted lists the program builds.
- Go `panic` (failed `assert`, nil-pointer dereference) is modelled by
  `Option`: a function returns `none` exactly when the Go code panics.
- `execCommand`'s Go result pair `(string, error)` becomes
  `String × Option DbErr`.
-/

/-- Version record: `Value{txStartId, txEndId, value}` from main.go. -/
structure Value where
  txStartId : Nat
  txEndId : Nat
  value : String
deriving DecidableEq

/-- Model of `TransactionState` from main.go. -/
inductive TransactionState where
  | InProgressTransaction
  | AbortedTransaction
  | CommittedTransaction
deriving DecidableEq

/-- Model of `Isolation` from main.go (loosest first). -/
inductive Isolation where
  | ReadUncommittedIsolation
  | ReadCommittedIsolation
  | RepeatableReadIsolation
  | SnapshotIsolation
  | SerializableIsolation
deriving DecidableEq

/-- Model of `Transaction` from main.go. `inprogress` is the snapshot of in-progress
transaction ids taken at begin (a `btree.Set[uint64]`, modelled as an
ascending list); `writeset`/`readset` are `btree.Set[string]`, modelled as
ascending lists. -/
structure Transaction where
  isolation : Isolation
  id : Nat
  state : TransactionState
  inprogress : List Nat
  writeset : List String
  readset : List String
deriving DecidableEq

/-- Model of `Database` from main.go. `store` is the Go map `map[string][]Value`
(an association list; iteration order of the map is never used);
`transactions` is the `btree.Map[uint64, Transaction]` as an association
list sorted ascending by id. -/
structure Database where
  defaultIsolation : Isolation
  store : List (String × List Value)
  transactions : List (Nat × Transaction)
  nextTransactionId : Nat
deriving DecidableEq

/-- Model of `newDatabase()` from main.go: Read Committed default, empty store,
next transaction id 1 (0 is reserved to mean "unset"). -/
def newDatabase : Database :=
  { defaultIsolation := .ReadCommittedIsolation
    store := []
    transactions := []
    nextTransactionId := 1 }

/-- Model of `btree.Map.Set`: insert or replace, keeping the list sorted by key. -/
def tableSet (txs : List (Nat × Transaction)) (id : Nat) (t : Transaction) :
    List (Nat × Transaction) :=
  match txs with
  | [] => [(id, t)]
  | (k, u) :: rest =>
    if id < k then (id, t) :: (k, u) :: rest
    else if id = k then (id, t) :: rest
    else (k, u) :: tableSet rest id t

/-- Model of `btree.Map.Get`: exact-key lookup. -/
def tableGet (txs : List (Nat × Transaction)) (id : Nat) : Option Transaction :=
  match txs.find? (fun p => p.1 == id) with
  | some p => some p.2
  | none => none

/-- Model of `btree.Map.Iter.Seek(id)`: first entry with key greater-or-equal to `id`
(on the sorted table this is what the btree iterator returns). -/
def seekTable (txs : List (Nat × Transaction)) (id : Nat) :
    Option (Nat × Transaction) :=
  txs.find? (fun p => decide (id ≤ p.1))

/-- Lexicographic strict order on the character lists of two strings,
comparing codepoints. This is the order Go's byte-wise string comparison
induces (UTF-8 encoding preserves codepoint order), i.e. the order
`btree.Set[string]` uses. Written structurally so it evaluates. -/
def strLtB : List Char → List Char → Bool
  | [], [] => false
  | [], _ :: _ => true
  | _ :: _, [] => false
  | a :: as, b :: bs =>
    if a.toNat < b.toNat then true
    else if b.toNat < a.toNat then false
    else strLtB as bs

/-- Non-strict string order: `a` is not after `b`. -/
def strLeB (a b : String) : Bool := !(strLtB b.data a.data)

/-- Model of `btree.Set[string].Iter.Seek(k)`: first element greater-or-equal to `k`.
Note carefully: this is exactly what `setsShareItem` in main.go calls, and it
does NOT test membership of `k`. -/
def seekSet (s : List String) (k : String) : Option String :=
  s.find? (fun y => strLeB k y)

/-- Model of `Database.transactionState` from main.go. The Go function `assert`s that
the id is present and panics otherwise; `none` models that panic. -/
def transactionState (d : Database) (txId : Nat) : Option Transaction :=
  tableGet d.transactions txId

/-- Go map read `d.store[key]` (missing key yields the empty slice). -/
def storeGetL (st : List (String × List Value)) (k : String) : List Value :=
  match st.find? (fun p => p.1 == k) with
  | some p => p.2
  | none => []

/-- Go map read `d.store[key]` on the database. -/
def storeGet (d : Database) (k : String) : List Value :=
  storeGetL d.store k

/-- Go map write `d.store[key] = l`. -/
def storeSet (st : List (String × List Value)) (k : String) (l : List Value) :
    List (String × List Value) :=
  match st with
  | [] => [(k, l)]
  | (k', l') :: rest =>
    if k' = k then (k, l) :: rest else (k', l') :: storeSet rest k l

/-- Model of `btree.Set[string].Insert`: ordered insert without duplicates. -/
def insertStrSorted (k : String) : List String → List String
  | [] => [k]
  | x :: rest =>
    if strLtB k.data x.data then k :: x :: rest
    else if k = x then x :: rest
    else x :: insertStrSorted k rest

/-- Model of `Database.inprogress()` from main.go: ids of all transactions whose
table record is InProgress, in ascending table order. -/
def dbInprogress (d : Database) : List Nat :=
  (d.transactions.filter (fun p => p.2.state == .InProgressTransaction)).map
    (fun p => p.1)

/-- Model of `setsShareItem(s1, s2)` from main.go, verbatim: for each element of `s1`
in ascending order it `Seek`s `s2` and returns true as soon as the seek finds
anything — i.e. as soon as `s2` holds some element greater-or-equal to the
`s1` element. (The Go code never compares the found key for equality.) -/
def setsShareItem (s1 s2 : List String) : Bool :=
  s1.any (fun k => (seekSet s2 k).isSome)

/-- Model of `Database.hasConflict(t1, conflictFn)` from main.go: pass one scans the
ids in `t1.inprogress`, pass two scans ids `t1.id, ..., nextTransactionId-1`;
each id is `Seek`ed in the transaction table and the found record is tested
when it is Committed. -/
def hasConflict (d : Database) (t1 : Transaction)
    (conflictFn : Transaction → Transaction → Bool) : Bool :=
  (t1.inprogress.any (fun id =>
    match seekTable d.transactions id with
    | none => false
    | some (_, t2) =>
      if t2.state = .CommittedTransaction then conflictFn t1 t2 else false)) ||
  ((List.range' t1.id (d.nextTransactionId - t1.id)).any (fun id =>
    match seekTable d.transactions id with
    | none => false
    | some (_, t2) =>
      if t2.state = .CommittedTransaction then conflictFn t1 t2 else false))

/-- Errors surfaced by the engine. Go returns them as strings; the mapping is
`keyNotFound` = "cannot get/delete key that does not exist",
`writeConflict` = "write-write conflict",
`serializationConflict` = "read-write conflict". -/
inductive DbErr where
  | keyNotFound
  | writeConflict
  | serializationConflict
deriving DecidableEq

/-- The final table update of `completeTransaction`: set `t.state = state`
and store the (live) record into the table. -/
def completeFinal (d : Database) (t : Transaction) (state : TransactionState) :
    Database × Transaction :=
  let t' := { t with state := state }
  ({ d with transactions := tableSet d.transactions t'.id t' }, t')

/-- Model of `Database.completeTransaction(t, state)` from main.go. On commit of a
Snapshot Isolation (resp. Serializable) transaction with a conflict the Go
code recursively completes the transaction as Aborted and returns the
conflict error; that recursive call only performs the final table update
(its state is not Committed), which is inlined here via `completeFinal`. -/
def completeTransaction (d : Database) (t : Transaction)
    (state : TransactionState) : Database × Transaction × Option DbErr :=
  if state = .CommittedTransaction then
    if t.isolation = .SnapshotIsolation ∧
        hasConflict d t (fun a b => setsShareItem a.writeset b.writeset)
          = true then
      let p := completeFinal d t .AbortedTransaction
      (p.1, p.2, some .writeConflict)
    else if t.isolation = .SerializableIsolation ∧
        hasConflict d t (fun a b =>
          setsShareItem a.readset b.writeset ||
          setsShareItem a.writeset b.readset) = true then
      let p := completeFinal d t .AbortedTransaction
      (p.1, p.2, some .serializationConflict)
    else
      let p := completeFinal d t .CommittedTransaction
      (p.1, p.2, none)
  else
    let p := completeFinal d t state
    (p.1, p.2, none)

/-- Model of `Database.newTransaction()` from main.go: default isolation, InProgress,
next id (then incremented), snapshot of in-progress ids taken before the new
record is added to the table. -/
def newTransaction (d : Database) : Database × Transaction :=
  let t : Transaction :=
    { isolation := d.defaultIsolation
      id := d.nextTransactionId
      state := .InProgressTransaction
      inprogress := dbInprogress d
      writeset := []
      readset := [] }
  ({ d with
      nextTransactionId := d.nextTransactionId + 1
      transactions := tableSet d.transactions t.id t }, t)

/-- Model of `Database.assertValidTransaction` plus the nil-pointer dereference that
happens when a command runs with no active transaction: `none` models the
panic, `some t` passes the connection's live transaction through. -/
def validTx (d : Database) (otx : Option Transaction) : Option Transaction :=
  match otx with
  | none => none
  | some t =>
    if 0 < t.id then
      match transactionState d t.id with
      | none => none
      | some rec =>
        if rec.state = .InProgressTransaction then some t else none
    else none

/-- Tail of the Read Committed visibility branch of `Database.isvisible`
(the checks after the creator check): deleted-by-self, then
deleted-by-some-committed-transaction. -/
def isvisibleRCEnd (d : Database) (t : Transaction) (v : Value) : Option Bool :=
  if v.txEndId = t.id then some false
  else if 0 < v.txEndId then
    match transactionState d v.txEndId with
    | none => none
    | some s =>
      if s.state = .CommittedTransaction then some false else some true
  else some true

/-- Read Committed branch of `Database.isvisible` from main.go. The creator
state is consulted only when the creator is not this transaction (Go
short-circuit of `&&`); a missing table record is the Go panic (`none`). -/
def isvisibleRC (d : Database) (t : Transaction) (v : Value) : Option Bool :=
  if v.txStartId ≠ t.id then
    match transactionState d v.txStartId with
    | none => none
    | some s =>
      if s.state ≠ .CommittedTransaction then some false
      else isvisibleRCEnd d t v
  else isvisibleRCEnd d t v

/-- Tail of the Repeatable Read / Snapshot / Serializable visibility branch:
deleted-by-self, then deleted by an older (`txEndId < t.id`), set
(`0 < txEndId`), committed, non-snapshot transaction. -/
def isvisibleRREnd (d : Database) (t : Transaction) (v : Value) : Option Bool :=
  if v.txEndId = t.id then some false
  else if v.txEndId < t.id ∧ 0 < v.txEndId then
    match transactionState d v.txEndId with
    | none => none
    | some s =>
      if s.state = .CommittedTransaction ∧ v.txEndId ∉ t.inprogress then
        some false
      else some true
  else some true

/-- Repeatable Read / Snapshot / Serializable branch of `Database.isvisible`
from main.go: reject creators newer than this transaction, creators in the
begin-time snapshot, and uncommitted foreign creators, then apply
`isvisibleRREnd`. -/
def isvisibleRR (d : Database) (t : Transaction) (v : Value) : Option Bool :=
  if t.id < v.txStartId then some false
  else if v.txStartId ∈ t.inprogress then some false
  else
    match transactionState d v.txStartId with
    | none => none
    | some s =>
      if s.state ≠ .CommittedTransaction ∧ v.txStartId ≠ t.id then some false
      else isvisibleRREnd d t v

/-- Model of `Database.isvisible(t, value)` from main.go, branching on the isolation
level. `none` models a panic inside `transactionState`. -/
def isvisible (d : Database) (t : Transaction) (v : Value) : Option Bool :=
  match t.isolation with
  | .ReadUncommittedIsolation => some (decide (v.txEndId = 0))
  | .ReadCommittedIsolation => isvisibleRC d t v
  | _ => isvisibleRR d t v

/-- The scan in the `set`/`delete` branch of `execCommand`: mark every
version visible to `t` as ended by `t` (`txEndId = t.id`) and report whether
any visible version was found. The Go loop walks the slice newest-first, but
each element's treatment depends only on that element, so the straight
recursion is the same function; `none` models a panic inside `isvisible`
(the Go loop visits every element, so it panics iff any element panics). -/
def endVisible (d : Database) (t : Transaction) :
    List Value → Option (List Value × Bool)
  | [] => some ([], false)
  | v :: rest =>
    match isvisible d t v with
    | none => none
    | some b =>
      match endVisible d t rest with
      | none => none
      | some (rest', found) =>
        some ((if b then { v with txEndId := t.id } else v) :: rest',
          b || found)

/-- The scan in the `get` branch of `execCommand`, applied to the reversed
key sequence (Go walks newest-first): return the payload of the first
visible version; `some none` when no version is visible; `none` models a
panic inside `isvisible` before a visible version is reached. -/
def findVisible (d : Database) (t : Transaction) :
    List Value → Option (Option String)
  | [] => some none
  | v :: rest =>
    match isvisible d t v with
    | none => none
    | some true => some (some v.value)
    | some false => findVisible d t rest

/-- Commands accepted by `Connection.execCommand`. `begin` carries the raw
argument list it receives in Go (which the Go code never reads); the other
commands carry the `args[0]`/`args[1]` strings they index out of the list. -/
inductive Cmd where
  | begin (args : List String)
  | abort
  | commit
  | set (key val : String)
  | del (key : String)
  | get (key : String)
deriving DecidableEq

/-- Result of one `execCommand` call: the updated database, the connection's
transaction pointer after the call, and Go's `(string, error)` return pair. -/
structure ExecResult where
  db : Database
  tx : Option Transaction
  out : String
  err : Option DbErr
deriving DecidableEq

/-- Model of `Connection.execCommand(command, args)` from main.go, as a pure function
of the database and the connection's current transaction. `none` models a
panic (a failed `assert`, including `begin` on a busy connection and any
other command on a connection with no transaction). -/
def execCommand (d : Database) (otx : Option Transaction) :
    Cmd → Option ExecResult
  | .begin _args =>
    match otx with
    | some _ => none
    | none =>
      let p := newTransaction d
      match validTx p.1 (some p.2) with
      | none => none
      | some t => some ⟨p.1, some t, toString t.id, none⟩
  | .abort =>
    match validTx d otx with
    | none => none
    | some t =>
      let r := completeTransaction d t .AbortedTransaction
      some ⟨r.1, none, "", r.2.2⟩
  | .commit =>
    match validTx d otx with
    | none => none
    | some t =>
      let r := completeTransaction d t .CommittedTransaction
      some ⟨r.1, none, "", r.2.2⟩
  | .set k val =>
    match validTx d otx with
    | none => none
    | some t =>
      match endVisible d t (storeGet d k) with
      | none => none
      | some (vs, _found) =>
        let t' := { t with writeset := insertStrSorted k t.writeset }
        let st' := storeSet d.store k (vs ++ [⟨t.id, 0, val⟩])
        some ⟨{ d with store := st' }, some t', val, none⟩
  | .del k =>
    match validTx d otx with
    | none => none
    | some t =>
      match endVisible d t (storeGet d k) with
      | none => none
      | some (vs, found) =>
        if found then
          let t' := { t with writeset := insertStrSorted k t.writeset }
          some ⟨{ d with store := storeSet d.store k vs }, some t', "", none⟩
        else some ⟨d, some t, "", some .keyNotFound⟩
  | .get k =>
    match validTx d otx with
    | none => none
    | some t =>
      let t' := { t with readset := insertStrSorted k t.readset }
      match findVisible d t' (storeGet d k).reverse with
      | none => none
      | some (some val) => some ⟨d, some t', val, none⟩
      | some none => some ⟨d, some t', "", some .keyNotFound⟩

/-- State of a multi-connection run: the shared database, each connection's
transaction pointer, and the accumulated `(string, error)` results. -/
structure RunState where
  db : Database
  txs : List (Option Transaction)
  results : List (String × Option DbErr)
deriving DecidableEq

/-- A fresh run over database `d` with `n` connections (each from
`Database.newConnection`, i.e. with no transaction). -/
def initState (d : Database) (n : Nat) : RunState :=
  ⟨d, List.replicate n none, []⟩

/-- Run a list of `(connection index, command)` pairs sequentially over the
shared database, recording each call's `(string, error)` result; `none`
models a panic somewhere in the run. -/
def runScript : RunState → List (Nat × Cmd) → Option RunState
  | st, [] => some st
  | st, (i, c) :: rest =>
    match execCommand st.db (st.txs.getD i none) c with
    | none => none
    | some r =>
      runScript ⟨r.db, st.txs.set i r.tx, st.results ++ [(r.out, r.err)]⟩ rest

/-- The claim conditions phrase visibility via `state(id) == Committed`;
this is that test against the current transaction table (false also when the
id is absent, a case the accompanying theorems exclude by hypothesis). -/
def committedIn (d : Database) (id : Nat) : Bool :=
  match transactionState d id with
  | some rec => rec.state == .CommittedTransaction
  | none => false

/-- Two commands in sequence on one connection. -/
def execThen (d : Database) (otx : Option Transaction) (c1 c2 : Cmd) :
    Option ExecResult :=
  match execCommand d otx c1 with
  | none => none
  | some r => execCommand r.db r.tx c2
/-- A fresh database whose default isolation is Snapshot Isolation. -/
def siDb : Database := { newDatabase with defaultIsolation := .SnapshotIsolation }

/-- A fresh database whose default isolation is Serializable. -/
def serDb : Database :=
  { newDatabase with defaultIsolation := .SerializableIsolation }

/-- The transaction record produced by the first `begin` on a fresh
Read Committed database. -/
def rcT1 : Transaction :=
  ⟨.ReadCommittedIsolation, 1, .InProgressTransaction, [], [], []⟩

/-- The database state after the first `begin` on a fresh database. -/
def rcDb1 : Database := ⟨.ReadCommittedIsolation, [], [(1, rcT1)], 2⟩
/-- The result of a failed `delete` of the missing key "x" right after the
first `begin`. -/
def rcDelRes : ExecResult := ⟨rcDb1, some rcT1, "", some .keyNotFound⟩

/-- The result of a failed `get` of the missing key "x" right after the
first `begin`. -/
def rcGetRes : ExecResult :=
  ⟨rcDb1, some ⟨.ReadCommittedIsolation, 1, .InProgressTransaction, [], [],
    ["x"]⟩, "", some .keyNotFound⟩
/-- The result of committing the first transaction of a fresh database. -/
def cCommitRes : ExecResult :=
  ⟨⟨.ReadCommittedIsolation, [],
    [(1, ⟨.ReadCommittedIsolation, 1, .CommittedTransaction, [], [], []⟩)],
    2⟩, none, "", none⟩
/-- A committed transaction record with id 1, used as concrete table data. -/
def wRec1 : Transaction :=
  ⟨.ReadCommittedIsolation, 1, .CommittedTransaction, [], [], []⟩

/-- A Repeatable Read transaction with id 3 and an empty snapshot. -/
def wTxRR : Transaction :=
  ⟨.RepeatableReadIsolation, 3, .InProgressTransaction, [], [], []⟩

/-- A Read Committed transaction with id 3. -/
def wTxRC : Transaction :=
  ⟨.ReadCommittedIsolation, 3, .InProgressTransaction, [], [], []⟩

/-- A concrete database: transaction 1 committed, transaction 3 in progress. -/
def wDb : Database := ⟨.ReadCommittedIsolation, [], [(1, wRec1), (3, wTxRR)], 4⟩

/-- A live version created by transaction 1. -/
def wVal : Value := ⟨1, 0, "hey"⟩

/-- A version created and ended by the same transaction 1. -/
def wValSelf : Value := ⟨1, 1, "hey"⟩

/-- Lemma: `tableSet` followed by `tableGet` at the same id returns the stored
record. -/
theorem tableGet_tableSet_self (txs : List (Nat × Transaction)) (id : Nat)
    (t : Transaction) : tableGet (tableSet txs id t) id = some t := by
  induction txs with
  | nil => simp [tableSet, tableGet]
  | cons p rest ih =>
    obtain ⟨k, u⟩ := p
    by_cases h1 : id < k
    · simp [tableSet, h1, tableGet]
    · by_cases h2 : id = k
      · simp [tableSet, h1, h2, tableGet]
      · have hk : (k == id) = false := by
          simp [Ne.symm h2]
        simp only [tableSet, if_neg h1, if_neg h2, tableGet, List.find?]
        rw [hk]
        exact ih

/-- Lemma: `storeSet` followed by `storeGetL` at the same key returns the stored
sequence. -/
theorem storeGetL_storeSet_self (st : List (String × List Value)) (k : String)
    (l : List Value) : storeGetL (storeSet st k l) k = l := by
  induction st with
  | nil => simp [storeSet, storeGetL]
  | cons p rest ih =>
    obtain ⟨k', l'⟩ := p
    by_cases h : k' = k
    · simp [storeSet, h, storeGetL]
    · have hk : (k' == k) = false := by simp [h]
      simp only [storeSet, if_neg h, storeGetL, List.find?]
      rw [hk]
      exact ih

/-- Lemma: `isvisible` depends only on the transaction table, the reader's
isolation, id and snapshot — not on the store nor the read/write sets. -/
theorem isvisible_store_sets_irrel (d : Database) (t : Transaction) (v : Value)
    (st : List (String × List Value)) (ws rs : List String) :
    isvisible { d with store := st } { t with writeset := ws, readset := rs } v
      = isvisible d t v := rfl

/-- Claim C1: for a transaction at Repeatable Read, Snapshot Isolation or
Serializable isolation, and any version whose creator (and, when set, ender)
id is present in the transaction table, `isvisible` returns true exactly when
the creator started no later than this transaction, is not in the begin-time
snapshot, is this transaction or committed, the version was not ended by this
transaction, and, when the version is ended, it was not ended by an older,
committed, non-snapshot transaction. -/
theorem snapshot_visibility_characterization
    (d : Database) (t : Transaction) (v : Value)
    (hiso : t.isolation = .RepeatableReadIsolation ∨
      t.isolation = .SnapshotIsolation ∨
      t.isolation = .SerializableIsolation)
    (hstart : (transactionState d v.txStartId).isSome)
    (hend : 0 < v.txEndId → (transactionState d v.txEndId).isSome) :
    isvisible d t v = some true ↔
      (v.txStartId ≤ t.id ∧
       v.txStartId ∉ t.inprogress ∧
       (v.txStartId = t.id ∨ committedIn d v.txStartId = true) ∧
       v.txEndId ≠ t.id ∧
       (0 < v.txEndId →
         ¬(v.txEndId < t.id ∧ committedIn d v.txEndId = true ∧
           v.txEndId ∉ t.inprogress))) := by
  have hv : isvisible d t v = isvisibleRR d t v := by
    rcases hiso with h | h | h <;> simp [isvisible, h]
  rw [hv]
  obtain ⟨s, hs⟩ := Option.isSome_iff_exists.mp hstart
  unfold isvisibleRR
  rw [hs]
  by_cases hA : t.id < v.txStartId
  · simp only [if_pos hA]
    constructor
    · intro h; exact absurd h (by simp)
    · intro h; omega
  · simp only [if_neg hA]
    by_cases hB : v.txStartId ∈ t.inprogress
    · simp only [if_pos hB]
      constructor
      · intro h; exact absurd h (by simp)
      · intro h; exact absurd hB h.2.1
    · simp only [if_neg hB]
      by_cases hC : s.state ≠ .CommittedTransaction ∧ v.txStartId ≠ t.id
      · simp only [if_pos hC]
        constructor
        · intro h; exact absurd h (by simp)
        · intro h
          rcases h.2.2.1 with h' | h'
          · exact absurd h' hC.2
          · rw [committedIn, hs] at h'
            exact absurd (by simpa using h') hC.1
      · simp only [if_neg hC]
        have hstartOk : v.txStartId = t.id ∨ committedIn d v.txStartId = true := by
          rcases Decidable.not_and_iff_or_not.mp hC with h' | h'
          · right
            rw [committedIn, hs]
            simpa using Decidable.not_not.mp h'
          · left; exact Decidable.not_not.mp h'
        unfold isvisibleRREnd
        by_cases hD : v.txEndId = t.id
        · simp only [if_pos hD]
          constructor
          · intro h; exact absurd h (by simp)
          · intro h; exact absurd hD h.2.2.2.1
        · simp only [if_neg hD]
          by_cases hE : v.txEndId < t.id ∧ 0 < v.txEndId
          · simp only [if_pos hE]
            obtain ⟨s2, hs2⟩ := Option.isSome_iff_exists.mp (hend hE.2)
            rw [hs2]
            by_cases hF : s2.state = .CommittedTransaction ∧
                v.txEndId ∉ t.inprogress
            · simp only [if_pos hF]
              constructor
              · intro h; exact absurd h (by simp)
              · intro h
                exact absurd ⟨hE.1, by rw [committedIn, hs2]; simp [hF.1],
                  hF.2⟩ (h.2.2.2.2 hE.2)
            · simp only [if_neg hF]
              constructor
              · intro _
                refine ⟨by omega, hB, hstartOk, hD, fun _ hbad => ?_⟩
                apply hF
                refine ⟨?_, hbad.2.2⟩
                have := hbad.2.1
                rw [committedIn, hs2] at this
                simpa using this
              · intro _; trivial
          · simp only [if_neg hE]
            constructor
            · intro _
              refine ⟨by omega, hB, hstartOk, hD, fun hpos hbad => ?_⟩
              exact hE ⟨hbad.1, hpos⟩
            · intro _; trivial

/-- Claim C3: for a Read Committed transaction and any version whose ender
id, when set, is present in the transaction table, `isvisible` returns true
exactly when the creator is this transaction or is committed right now, the
version was not ended by this transaction, and the version is either not
ended or its ender is not committed right now. -/
theorem read_committed_visibility_characterization
    (d : Database) (t : Transaction) (v : Value)
    (hiso : t.isolation = .ReadCommittedIsolation)
    (hend : 0 < v.txEndId → (transactionState d v.txEndId).isSome) :
    isvisible d t v = some true ↔
      ((v.txStartId = t.id ∨ committedIn d v.txStartId = true) ∧
       v.txEndId ≠ t.id ∧
       (v.txEndId = 0 ∨ committedIn d v.txEndId = false)) := by
  have hv : isvisible d t v = isvisibleRC d t v := by simp [isvisible, hiso]
  rw [hv]
  have hrcEnd : isvisibleRCEnd d t v = some true ↔
      (v.txEndId ≠ t.id ∧ (v.txEndId = 0 ∨ committedIn d v.txEndId = false)) := by
    unfold isvisibleRCEnd
    by_cases hD : v.txEndId = t.id
    · simp only [if_pos hD]
      constructor
      · intro h; exact absurd h (by simp)
      · intro h; exact absurd hD h.1
    · simp only [if_neg hD]
      by_cases hE : 0 < v.txEndId
      · simp only [if_pos hE]
        obtain ⟨s2, hs2⟩ := Option.isSome_iff_exists.mp (hend hE)
        rw [hs2]
        by_cases hF : s2.state = .CommittedTransaction
        · simp only [if_pos hF]
          constructor
          · intro h; exact absurd h (by simp)
          · intro h
            rcases h.2 with h' | h'
            · omega
            · rw [committedIn, hs2] at h'
              simp [hF] at h'
        · simp only [if_neg hF]
          constructor
          · intro _
            refine ⟨hD, Or.inr ?_⟩
            rw [committedIn, hs2]
            simp [hF]
          · intro _; trivial
      · simp only [if_neg hE]
        constructor
        · intro _; exact ⟨hD, Or.inl (by omega)⟩
        · intro _; trivial
  unfold isvisibleRC
  by_cases hA : v.txStartId ≠ t.id
  · simp only [if_pos hA]
    cases hs : transactionState d v.txStartId with
    | none =>
      constructor
      · intro h; exact absurd h (by simp)
      · intro h
        rcases h.1 with h' | h'
        · exact absurd h' hA
        · rw [committedIn, hs] at h'; exact absurd h' (by simp)
    | some s =>
      by_cases hC : s.state ≠ .CommittedTransaction
      · simp only [if_pos hC]
        constructor
        · intro h; exact absurd h (by simp)
        · intro h
          rcases h.1 with h' | h'
          · exact absurd h' hA
          · rw [committedIn, hs] at h'
            exact absurd (by simpa using h') hC
      · simp only [if_neg hC]
        rw [hrcEnd]
        constructor
        · intro h
          refine ⟨Or.inr ?_, h⟩
          rw [committedIn, hs]
          simpa using Decidable.not_not.mp hC
        · intro h; exact h.2
  · simp only [if_neg hA]
    rw [hrcEnd]
    constructor
    · intro h; exact ⟨Or.inl (Decidable.not_not.mp hA), h⟩
    · intro h; exact h.2

/-- Claim C4: a version created and ended by the same (valid, id at least 1)
transaction, whose creator id is present in the transaction table, is visible
to no transaction at any isolation level. -/
theorem self_ended_version_never_visible
    (d : Database) (t : Transaction) (v : Value)
    (hsame : v.txStartId = v.txEndId)
    (hpos : 0 < v.txStartId)
    (hstart : (transactionState d v.txStartId).isSome) :
    isvisible d t v = some false := by
  obtain ⟨s, hs⟩ := Option.isSome_iff_exists.mp hstart
  have hrc : isvisibleRC d t v = some false := by
    unfold isvisibleRC
    by_cases hA : v.txStartId ≠ t.id
    · rw [if_pos hA, hs]
      by_cases hC : s.state ≠ .CommittedTransaction
      · simp only [if_pos hC]
      · simp only [if_neg hC]
        unfold isvisibleRCEnd
        rw [if_neg (by omega), if_pos (by omega), ← hsame, hs]
        simp only [if_pos (Decidable.not_not.mp hC)]
    · rw [if_neg hA]
      unfold isvisibleRCEnd
      rw [if_pos (by omega)]
  have hrr : isvisibleRR d t v = some false := by
    unfold isvisibleRR
    by_cases hA : t.id < v.txStartId
    · rw [if_pos hA]
    · rw [if_neg hA]
      by_cases hB : v.txStartId ∈ t.inprogress
      · rw [if_pos hB]
      · rw [if_neg hB, hs]
        by_cases hC : s.state ≠ .CommittedTransaction ∧ v.txStartId ≠ t.id
        · simp only [if_pos hC]
        · simp only [if_neg hC]
          unfold isvisibleRREnd
          by_cases hD : v.txEndId = t.id
          · rw [if_pos hD]
          · have hlt : v.txEndId < t.id ∧ 0 < v.txEndId := by omega
            rw [if_neg hD, if_pos hlt, ← hsame, hs]
            have hcom : s.state = .CommittedTransaction := by
              rcases Decidable.not_and_iff_or_not.mp hC with h' | h'
              · exact Decidable.not_not.mp h'
              · exact absurd (Decidable.not_not.mp h') (by omega)
            exact if_pos ⟨hcom, hB⟩
  cases hi : t.isolation with
  | ReadUncommittedIsolation => simp [isvisible, hi]; omega
  | ReadCommittedIsolation => rw [isvisible, hi]; exact hrc
  | RepeatableReadIsolation => rw [isvisible, hi]; exact hrr
  | SnapshotIsolation => rw [isvisible, hi]; exact hrr
  | SerializableIsolation => rw [isvisible, hi]; exact hrr

/-- Inversion of `validTx`: a command's validity check passes only for the
connection's own transaction, which must have a positive id and an InProgress
record in the table. -/
theorem validTx_some_inv (d : Database) (otx : Option Transaction)
    (t0 : Transaction) (h : validTx d otx = some t0) :
    otx = some t0 ∧ 0 < t0.id ∧
      ∃ rec, transactionState d t0.id = some rec ∧
        rec.state = .InProgressTransaction := by
  cases otx with
  | none => cases h
  | some t =>
    simp only [validTx] at h
    by_cases hp : 0 < t.id
    · rw [if_pos hp] at h
      cases hts : transactionState d t.id with
      | none => simp only [hts] at h; cases h
      | some rec =>
        simp only [hts] at h
        by_cases hip : rec.state = .InProgressTransaction
        · rw [if_pos hip] at h
          cases h
          exact ⟨rfl, hp, rec, hts, hip⟩
        · rw [if_neg hip] at h; cases h
    · rw [if_neg hp] at h; cases h

/-- A commit either succeeds with no error or aborts with one of the two
conflict errors; the table update is `completeFinal` either way. -/
theorem completeTransaction_commit_cases (d : Database) (t : Transaction) :
    completeTransaction d t .CommittedTransaction =
      ((completeFinal d t .CommittedTransaction).1,
        (completeFinal d t .CommittedTransaction).2, none) ∨
    completeTransaction d t .CommittedTransaction =
      ((completeFinal d t .AbortedTransaction).1,
        (completeFinal d t .AbortedTransaction).2, some .writeConflict) ∨
    completeTransaction d t .CommittedTransaction =
      ((completeFinal d t .AbortedTransaction).1,
        (completeFinal d t .AbortedTransaction).2,
          some .serializationConflict) := by
  unfold completeTransaction
  rw [if_pos rfl]
  split
  · right; left; rfl
  · split
    · right; right; rfl
    · left; rfl

/-- After `completeFinal`, looking the transaction up in the table yields its
record carrying the final state. -/
theorem transactionState_completeFinal (d : Database) (t : Transaction)
    (st : TransactionState) :
    transactionState (completeFinal d t st).1 t.id = some { t with state := st } := by
  simp only [completeFinal, transactionState]
  exact tableGet_tableSet_self d.transactions t.id { t with state := st }

/-- Claim C6: whenever a `commit` call completes (does not panic), the
transaction's table record is no longer InProgress, and whenever the call
surfaces a WriteConflict or SerializationConflict error the record's state is
Aborted (set by the same call, before the error is returned). -/
theorem commit_always_resolves
    (d : Database) (t : Transaction) (r : ExecResult)
    (h : execCommand d (some t) .commit = some r) :
    ∃ rec, transactionState r.db t.id = some rec ∧
      rec.state ≠ .InProgressTransaction ∧
      ((r.err = some .writeConflict ∨ r.err = some .serializationConflict) →
        rec.state = .AbortedTransaction) := by
  simp only [execCommand] at h
  cases hvt : validTx d (some t) with
  | none => rw [hvt] at h; cases h
  | some t0 =>
    obtain ⟨hotx, -, -⟩ := validTx_some_inv d (some t) t0 hvt
    injection hotx with hteq
    subst hteq
    simp only [hvt] at h
    rcases completeTransaction_commit_cases d t with hc | hc | hc <;>
        rw [hc] at h <;> cases h
    · exact ⟨{ t with state := .CommittedTransaction },
        transactionState_completeFinal d t _, by simp, by simp⟩
    · exact ⟨{ t with state := .AbortedTransaction },
        transactionState_completeFinal d t _, by simp, fun _ => rfl⟩
    · exact ⟨{ t with state := .AbortedTransaction },
        transactionState_completeFinal d t _, by simp, fun _ => rfl⟩

/-- Lemma: `isvisible` reads only the transaction table and the reader's isolation,
id and snapshot. -/
theorem isvisible_congr (d d' : Database) (t t' : Transaction) (v : Value)
    (hd : d'.transactions = d.transactions) (h1 : t'.isolation = t.isolation)
    (h2 : t'.id = t.id) (h3 : t'.inprogress = t.inprogress) :
    isvisible d' t' v = isvisible d t v := by
  obtain ⟨iso, id, st, ip, ws, rs⟩ := t
  obtain ⟨iso', id', st', ip', ws', rs'⟩ := t'
  simp only at h1 h2 h3
  subst h1; subst h2; subst h3
  simp only [isvisible, isvisibleRR, isvisibleRC, isvisibleRCEnd,
    isvisibleRREnd, transactionState, hd]

/-- Lemma: `findVisible` under the same congruence. -/
theorem findVisible_congr (d d' : Database) (t t' : Transaction)
    (hd : d'.transactions = d.transactions) (h1 : t'.isolation = t.isolation)
    (h2 : t'.id = t.id) (h3 : t'.inprogress = t.inprogress) :
    ∀ l, findVisible d' t' l = findVisible d t l := by
  intro l
  induction l with
  | nil => rfl
  | cons v rest ih =>
    simp only [findVisible, isvisible_congr d d' t t' v hd h1 h2 h3, ih]

/-- Flat-form instance of `findVisible_congr`: changing the store and the
read/write sets does not change the scan. -/
theorem findVisible_writeread (d : Database) (t : Transaction)
    (st : List (String × List Value)) (ws rs : List String) :
    ∀ l, findVisible ⟨d.defaultIsolation, st, d.transactions,
        d.nextTransactionId⟩
      ⟨t.isolation, t.id, t.state, t.inprogress, ws, rs⟩ l =
      findVisible d t l :=
  findVisible_congr d _ t _ rfl rfl rfl rfl

/-- A version a transaction can see becomes invisible to that transaction
once the transaction marks it as ended by itself. -/
theorem isvisible_after_end_self (d : Database) (t : Transaction) (u : Value)
    (hpos : 0 < t.id) (h : isvisible d t u = some true) :
    isvisible d t { u with txEndId := t.id } = some false := by
  obtain ⟨us, ue, uv⟩ := u
  cases hi : t.isolation with
  | ReadUncommittedIsolation =>
    simp only [isvisible, hi] at h ⊢
    simp
    omega
  | ReadCommittedIsolation =>
    rw [isvisible, hi] at h ⊢
    unfold isvisibleRC isvisibleRCEnd at h ⊢
    simp only at h ⊢
    by_cases hA : us ≠ t.id
    · rw [if_pos hA] at h ⊢
      cases hts : transactionState d us with
      | none => exact Option.noConfusion (hts ▸ h)
      | some s =>
        simp only [hts] at h ⊢
        by_cases hC : s.state ≠ .CommittedTransaction
        · rw [if_pos hC] at h; exact absurd h (by simp)
        · rw [if_neg hC] at h ⊢
          exact if_pos trivial
    · rw [if_neg hA] at h ⊢
      exact if_pos trivial
  | RepeatableReadIsolation =>
    rw [isvisible, hi] at h ⊢
    unfold isvisibleRR isvisibleRREnd at h ⊢
    simp only at h ⊢
    by_cases hA : t.id < us
    · rw [if_pos hA] at h; exact absurd h (by simp)
    · rw [if_neg hA] at h ⊢
      by_cases hB : us ∈ t.inprogress
      · rw [if_pos hB] at h; exact absurd h (by simp)
      · rw [if_neg hB] at h ⊢
        cases hts : transactionState d us with
        | none => exact Option.noConfusion (hts ▸ h)
        | some s =>
          simp only [hts] at h ⊢
          by_cases hC : s.state ≠ .CommittedTransaction ∧ us ≠ t.id
          · rw [if_pos hC] at h; exact absurd h (by simp)
          · rw [if_neg hC] at h ⊢
            exact if_pos trivial
  | SnapshotIsolation =>
    rw [isvisible, hi] at h ⊢
    unfold isvisibleRR isvisibleRREnd at h ⊢
    simp only at h ⊢
    by_cases hA : t.id < us
    · rw [if_pos hA] at h; exact absurd h (by simp)
    · rw [if_neg hA] at h ⊢
      by_cases hB : us ∈ t.inprogress
      · rw [if_pos hB] at h; exact absurd h (by simp)
      · rw [if_neg hB] at h ⊢
        cases hts : transactionState d us with
        | none => exact Option.noConfusion (hts ▸ h)
        | some s =>
          simp only [hts] at h ⊢
          by_cases hC : s.state ≠ .CommittedTransaction ∧ us ≠ t.id
          · rw [if_pos hC] at h; exact absurd h (by simp)
          · rw [if_neg hC] at h ⊢
            exact if_pos trivial
  | SerializableIsolation =>
    rw [isvisible, hi] at h ⊢
    unfold isvisibleRR isvisibleRREnd at h ⊢
    simp only at h ⊢
    by_cases hA : t.id < us
    · rw [if_pos hA] at h; exact absurd h (by simp)
    · rw [if_neg hA] at h ⊢
      by_cases hB : us ∈ t.inprogress
      · rw [if_pos hB] at h; exact absurd h (by simp)
      · rw [if_neg hB] at h ⊢
        cases hts : transactionState d us with
        | none => exact Option.noConfusion (hts ▸ h)
        | some s =>
          simp only [hts] at h ⊢
          by_cases hC : s.state ≠ .CommittedTransaction ∧ us ≠ t.id
          · rw [if_pos hC] at h; exact absurd h (by simp)
          · rw [if_neg hC] at h ⊢
            exact if_pos trivial

/-- After the `set`/`delete` scan, every version in the key's sequence is
invisible to the transaction that ran the scan: the versions it could see
now carry `txEndId = t.id`, and the rest were already invisible. -/
theorem endVisible_marks_all (d : Database) (t : Transaction)
    (hpos : 0 < t.id) :
    ∀ l l' f, endVisible d t l = some (l', f) →
      ∀ w ∈ l', isvisible d t w = some false := by
  intro l
  induction l with
  | nil =>
    intro l' f h w hw
    simp only [endVisible] at h
    cases h
    cases hw
  | cons v rest ih =>
    intro l' f h w hw
    simp only [endVisible] at h
    cases hv : isvisible d t v with
    | none => exact Option.noConfusion (hv ▸ h)
    | some b =>
      simp only [hv] at h
      cases he : endVisible d t rest with
      | none => exact Option.noConfusion (he ▸ h)
      | some p =>
        obtain ⟨rest', f'⟩ := p
        simp only [he] at h
        cases h
        rcases List.mem_cons.mp hw with hw | hw
        · subst hw
          cases b with
          | true => exact isvisible_after_end_self d t v hpos hv
          | false => simpa using hv
        · exact ih rest' f' he w hw

/-- When every version in a sequence is invisible, the `get` scan finds
nothing (and does not panic). -/
theorem findVisible_of_all_invisible (d : Database) (t : Transaction) :
    ∀ l, (∀ w ∈ l, isvisible d t w = some false) →
      findVisible d t l = some none := by
  intro l
  induction l with
  | nil => intro _; rfl
  | cons v rest ih =>
    intro h
    have hv := h v (List.mem_cons_self v rest)
    simp only [findVisible, hv]
    exact ih (fun w hw => h w (List.mem_cons_of_mem v hw))

/-- The `set`/`delete` scan completes (does not panic) when `isvisible`
answers on every version of the key. -/
theorem endVisible_total (d : Database) (t : Transaction) :
    ∀ l, (∀ u ∈ l, (isvisible d t u).isSome) →
      ∃ l' f, endVisible d t l = some (l', f) := by
  intro l
  induction l with
  | nil => intro _; exact ⟨[], false, rfl⟩
  | cons v rest ih =>
    intro h
    obtain ⟨b, hb⟩ := Option.isSome_iff_exists.mp
      (h v (List.mem_cons_self v rest))
    obtain ⟨l', f, hl⟩ := ih (fun u hu => h u (List.mem_cons_of_mem v hu))
    exact ⟨(if b then { v with txEndId := t.id } else v) :: l', b || f,
      by simp only [endVisible, hb, hl]⟩

/-- A version freshly written by a live transaction (positive id, not in its
own snapshot, present in the table) is visible to that transaction at every
isolation level. -/
theorem own_new_version_visible (d : Database) (t : Transaction) (val : String)
    (hpos : 0 < t.id) (hself : t.id ∉ t.inprogress)
    (hrec : (transactionState d t.id).isSome) :
    isvisible d t ⟨t.id, 0, val⟩ = some true := by
  obtain ⟨s, hs⟩ := Option.isSome_iff_exists.mp hrec
  cases hi : t.isolation with
  | ReadUncommittedIsolation => simp [isvisible, hi]
  | ReadCommittedIsolation =>
    simp [isvisible, hi, isvisibleRC, isvisibleRCEnd, hpos.ne, hpos.ne']
  | RepeatableReadIsolation =>
    simp [isvisible, hi, isvisibleRR, isvisibleRREnd, hs, hself, hpos.ne, hpos.ne']
  | SnapshotIsolation =>
    simp [isvisible, hi, isvisibleRR, isvisibleRREnd, hs, hself, hpos.ne, hpos.ne']
  | SerializableIsolation =>
    simp [isvisible, hi, isvisibleRR, isvisibleRREnd, hs, hself, hpos.ne, hpos.ne']

/-- When the `set`/`delete` scan reports that no visible version was found,
every version of the key was already invisible. -/
theorem endVisible_not_found (d : Database) (t : Transaction) :
    ∀ l l', endVisible d t l = some (l', false) →
      ∀ w ∈ l, isvisible d t w = some false := by
  intro l
  induction l with
  | nil => intro l' _ w hw; cases hw
  | cons v rest ih =>
    intro l' h w hw
    simp only [endVisible] at h
    cases hv : isvisible d t v with
    | none => exact Option.noConfusion (hv ▸ h)
    | some b =>
      simp only [hv] at h
      cases he : endVisible d t rest with
      | none => exact Option.noConfusion (he ▸ h)
      | some p =>
        obtain ⟨rest', f'⟩ := p
        simp only [he] at h
        injection h with h'
        have h2 : (b || f') = false := congrArg Prod.snd h'
        have hb : b = false ∧ f' = false := by simpa using h2
        rcases List.mem_cons.mp hw with hw | hw
        · subst hw; rw [hv, hb.1]
        · exact ih rest' (hb.2 ▸ he) w hw

/-- Lemma: `validTx` passes for a live transaction with a positive id and an
InProgress table record. -/
theorem validTx_eq_some (d : Database) (t : Transaction) (rec : Transaction)
    (hpos : 0 < t.id) (h1 : transactionState d t.id = some rec)
    (h2 : rec.state = .InProgressTransaction) :
    validTx d (some t) = some t := by
  simp only [validTx, if_pos hpos, h1, if_pos h2]

/-- Shape of a `get` under a passing validity check: the key goes into the
read set, then the newest-first scan decides the result. -/
theorem execCommand_get_spec (d : Database) (t : Transaction) (k : String)
    (hvt : validTx d (some t) = some t) :
    execCommand d (some t) (.get k) =
      match findVisible d { t with readset := insertStrSorted k t.readset }
          (storeGet d k).reverse with
      | none => none
      | some (some v) =>
        some ⟨d, some { t with readset := insertStrSorted k t.readset }, v,
          none⟩
      | some none =>
        some ⟨d, some { t with readset := insertStrSorted k t.readset }, "",
          some .keyNotFound⟩ := by
  simp only [execCommand, hvt]

/-- Claim C7: at any isolation level, a live transaction immediately reads
back its own `set` on a key, and a `get` right after its own `delete` of the
key (whether or not the delete found a visible version) fails with
KeyNotFound. -/
theorem own_writes_read_back
    (d : Database) (t : Transaction) (k val : String)
    (hpos : 0 < t.id) (hself : t.id ∉ t.inprogress)
    (hrec : ∃ rec, transactionState d t.id = some rec ∧
      rec.state = .InProgressTransaction)
    (hscan : ∀ u ∈ storeGet d k, (isvisible d t u).isSome) :
    (∃ r, execThen d (some t) (.set k val) (.get k) = some r ∧
      r.out = val ∧ r.err = none) ∧
    (∃ r, execThen d (some t) (.del k) (.get k) = some r ∧
      r.err = some .keyNotFound) := by
  obtain ⟨rec, hrec1, hrec2⟩ := hrec
  have hvt : validTx d (some t) = some t :=
    validTx_eq_some d t rec hpos hrec1 hrec2
  obtain ⟨vs, f, hev⟩ := endVisible_total d t (storeGet d k) hscan
  have hrecS : (transactionState d t.id).isSome := by rw [hrec1]; rfl
  constructor
  · -- set then get
    have hset : execCommand d (some t) (.set k val) =
        some ⟨{ d with store := storeSet d.store k (vs ++ [⟨t.id, 0, val⟩]) },
          some { t with writeset := insertStrSorted k t.writeset }, val,
          none⟩ := by
      simp only [execCommand, hvt, hev]
    have hvt1 : validTx
        { d with store := storeSet d.store k (vs ++ [⟨t.id, 0, val⟩]) }
        (some { t with writeset := insertStrSorted k t.writeset }) =
        some { t with writeset := insertStrSorted k t.writeset } :=
      validTx_eq_some _ _ rec hpos hrec1 hrec2
    refine ⟨⟨{ d with store := storeSet d.store k (vs ++ [⟨t.id, 0, val⟩]) },
      some { t with writeset := insertStrSorted k t.writeset,
                    readset := insertStrSorted k t.readset },
      val, none⟩, ?_, rfl, rfl⟩
    · simp only [execThen, hset]
      rw [execCommand_get_spec _ _ k hvt1]
      rw [show ∀ l, findVisible
          ⟨d.defaultIsolation, storeSet d.store k (vs ++ [⟨t.id, 0, val⟩]),
            d.transactions, d.nextTransactionId⟩
          ⟨t.isolation, t.id, t.state, t.inprogress,
            insertStrSorted k t.writeset, insertStrSorted k t.readset⟩ l =
          findVisible d t l from findVisible_writeread d t _ _ _]
      simp only [storeGet]
      rw [storeGetL_storeSet_self]
      rw [List.reverse_append]
      simp only [List.reverse_cons, List.reverse_nil, List.nil_append,
        List.singleton_append, findVisible]
      rw [own_new_version_visible d t val hpos hself hrecS]
  · -- delete then get
    cases f with
    | true =>
      have hall : ∀ w ∈ vs, isvisible d t w = some false :=
        endVisible_marks_all d t hpos (storeGet d k) vs true hev
      have hdel : execCommand d (some t) (.del k) =
          some ⟨{ d with store := storeSet d.store k vs },
            some { t with writeset := insertStrSorted k t.writeset }, "",
            none⟩ := by
        simp only [execCommand, hvt, hev]
        exact if_pos trivial
      have hvt1 : validTx { d with store := storeSet d.store k vs }
          (some { t with writeset := insertStrSorted k t.writeset }) =
          some { t with writeset := insertStrSorted k t.writeset } :=
        validTx_eq_some _ _ rec hpos hrec1 hrec2
      refine ⟨⟨{ d with store := storeSet d.store k vs },
        some { t with writeset := insertStrSorted k t.writeset,
                      readset := insertStrSorted k t.readset },
        "", some .keyNotFound⟩, ?_, rfl⟩
      · simp only [execThen, hdel]
        rw [execCommand_get_spec _ _ k hvt1]
        rw [show ∀ l, findVisible
            ⟨d.defaultIsolation, storeSet d.store k vs,
              d.transactions, d.nextTransactionId⟩
            ⟨t.isolation, t.id, t.state, t.inprogress,
              insertStrSorted k t.writeset, insertStrSorted k t.readset⟩ l =
            findVisible d t l from findVisible_writeread d t _ _ _]
        simp only [storeGet]
        rw [storeGetL_storeSet_self]
        rw [findVisible_of_all_invisible d t vs.reverse
          (fun w hw => hall w (List.mem_reverse.mp hw))]
    | false =>
      have hall : ∀ w ∈ storeGet d k, isvisible d t w = some false :=
        endVisible_not_found d t (storeGet d k) vs hev
      have hdel : execCommand d (some t) (.del k) =
          some ⟨d, some t, "", some .keyNotFound⟩ := by
        simp only [execCommand, hvt, hev]
        rfl
      refine ⟨⟨d, some { t with readset := insertStrSorted k t.readset }, "",
        some .keyNotFound⟩, ?_, rfl⟩
      · simp only [execThen, hdel]
        rw [execCommand_get_spec _ _ k hvt]
        rw [show ∀ l, findVisible d
            { t with readset := insertStrSorted k t.readset } l =
            findVisible d t l from
          findVisible_congr d d t _ rfl rfl rfl rfl]
        rw [findVisible_of_all_invisible d t (storeGet d k).reverse
          (fun w hw => hall w (List.mem_reverse.mp hw))]

/-- Claim C2: with Snapshot Isolation, transaction 1 writes key "b" and
commits, transaction 2 (concurrent) writes only key "a", yet transaction 2's
commit is aborted with a write-write conflict although the two write sets
\x7b"a"\x7d and \x7b"b"\x7d are disjoint: `setsShareItem` fires because the
btree `Seek` finds "b" as the first element greater-or-equal to "a" and the
code never checks the found key for equality. -/
theorem si_write_conflict_despite_disjoint_writesets :
    (runScript (initState siDb 2)
        [(0, .begin []), (1, .begin []), (0, .set "b" "1"),
          (1, .set "a" "2"), (0, .commit), (1, .commit)]).map
      (fun st => st.results.map Prod.snd) =
      some [none, none, none, none, none, some .writeConflict] ∧
    (runScript (initState siDb 2)
        [(0, .begin []), (1, .begin []), (0, .set "b" "1"),
          (1, .set "a" "2"), (0, .commit), (1, .commit)]).map
      (fun st => (tableGet st.db.transactions 1).map
        (fun r => (r.writeset, r.state))) =
      some (some (["b"], .CommittedTransaction)) ∧
    (runScript (initState siDb 2)
        [(0, .begin []), (1, .begin []), (0, .set "b" "1"),
          (1, .set "a" "2"), (0, .commit), (1, .commit)]).map
      (fun st => (tableGet st.db.transactions 2).map
        (fun r => (r.writeset, r.state))) =
      some (some (["a"], .AbortedTransaction)) ∧
    setsShareItem ["a"] ["b"] = true ∧
    List.inter ["a"] ["b"] = ([] : List String) := by
  refine ⟨by decide, by decide, by decide, by decide, by decide⟩

/-- Claim C10: with Serializable isolation, transaction 1 (write set "b",
empty read set) commits successfully even though the second conflict-scan
pass starts at its own id — its table record is still InProgress at
detection time and is skipped. But transaction 2, whose read set "a" is
disjoint from every other set, is still aborted with a read-write conflict,
because `setsShareItem` tests seek-greater-or-equal instead of membership. -/
theorem serializable_abort_without_intersection :
    (runScript (initState serDb 2)
        [(0, .begin []), (1, .begin []), (1, .get "a"), (0, .set "b" "1"),
          (0, .commit), (1, .commit)]).map
      (fun st => st.results.map Prod.snd) =
      some [none, none, some .keyNotFound, none, none,
        some .serializationConflict] ∧
    (runScript (initState serDb 2)
        [(0, .begin []), (1, .begin []), (1, .get "a"), (0, .set "b" "1"),
          (0, .commit), (1, .commit)]).map
      (fun st => (tableGet st.db.transactions 1).map
        (fun r => (r.readset, r.writeset, r.state))) =
      some (some ([], ["b"], .CommittedTransaction)) ∧
    (runScript (initState serDb 2)
        [(0, .begin []), (1, .begin []), (1, .get "a"), (0, .set "b" "1"),
          (0, .commit), (1, .commit)]).map
      (fun st => (tableGet st.db.transactions 2).map
        (fun r => (r.readset, r.writeset, r.state))) =
      some (some (["a"], [], .AbortedTransaction)) ∧
    List.inter ["a"] ["b"] = ([] : List String) := by
  refine ⟨by decide, by decide, by decide, by decide⟩

/-- Claim C5's counterexample: a `get` of a missing key on a fresh
transaction returns the KeyNotFound error, yet the transaction's read set
has grown from the empty set to \x7b"x"\x7d — the record is not exactly as
it was before the command. -/
theorem failed_get_extends_readset :
    (runScript (initState newDatabase 1) [(0, .begin [])]).map
      (fun st => st.txs.map (Option.map Transaction.readset)) =
      some [some []] ∧
    (runScript (initState newDatabase 1) [(0, .begin []), (0, .get "x")]).map
      (fun st => st.results) =
      some [("1", none), ("", some .keyNotFound)] ∧
    (runScript (initState newDatabase 1) [(0, .begin []), (0, .get "x")]).map
      (fun st => st.txs.map (Option.map Transaction.readset)) =
      some [some ["x"]] := by
  refine ⟨by decide, by decide, by decide⟩

/-- Claim C5 (amended): a `delete` that fails with KeyNotFound leaves the
database and the transaction exactly unchanged; a `get` that fails with
KeyNotFound leaves the database (all versions) and the write set unchanged
but does insert the key into the transaction's read set. -/
theorem failed_command_effects (d : Database) (t : Transaction) (k : String)
    (r : ExecResult) :
    (execCommand d (some t) (.del k) = some r → r.err = some .keyNotFound →
      r.db = d ∧ r.tx = some t) ∧
    (execCommand d (some t) (.get k) = some r → r.err = some .keyNotFound →
      r.db = d ∧
        r.tx = some { t with readset := insertStrSorted k t.readset }) := by
  constructor
  · intro h herr
    simp only [execCommand] at h
    cases hvt : validTx d (some t) with
    | none => rw [hvt] at h; cases h
    | some t0 =>
      obtain ⟨hotx, -, -⟩ := validTx_some_inv d (some t) t0 hvt
      injection hotx with he
      subst he
      simp only [hvt] at h
      cases hev : endVisible d t (storeGet d k) with
      | none => rw [hev] at h; cases h
      | some p =>
        obtain ⟨vs, f⟩ := p
        simp only [hev] at h
        cases f with
        | true =>
          rw [if_pos rfl] at h
          cases h
          exact absurd herr (by simp)
        | false =>
          rw [if_neg (by simp)] at h
          cases h
          exact ⟨rfl, rfl⟩
  · intro h herr
    simp only [execCommand] at h
    cases hvt : validTx d (some t) with
    | none => rw [hvt] at h; cases h
    | some t0 =>
      obtain ⟨hotx, -, -⟩ := validTx_some_inv d (some t) t0 hvt
      injection hotx with he
      subst he
      simp only [hvt] at h
      cases hfv : findVisible d { t with readset := insertStrSorted k t.readset }
          (storeGet d k).reverse with
      | none => rw [hfv] at h; cases h
      | some o =>
        cases o with
        | none =>
          simp only [hfv] at h
          cases h
          exact ⟨rfl, rfl⟩
        | some v =>
          simp only [hfv] at h
          cases h
          exact absurd herr (by simp)

theorem failed_command_effects_witness :
    (execCommand rcDb1 (some rcT1) (.del "x") = some rcDelRes ∧
      rcDelRes.err = some .keyNotFound ∧
      (rcDelRes.db = rcDb1 ∧ rcDelRes.tx = some rcT1)) ∧
    (execCommand rcDb1 (some rcT1) (.get "x") = some rcGetRes ∧
      rcGetRes.err = some .keyNotFound ∧
      (rcGetRes.db = rcDb1 ∧ rcGetRes.tx =
        some { rcT1 with readset := insertStrSorted "x" rcT1.readset })) :=
  ⟨⟨by decide, by decide,
    (failed_command_effects rcDb1 rcT1 "x" rcDelRes).1 (by decide)
      (by decide)⟩,
   ⟨by decide, by decide,
    (failed_command_effects rcDb1 rcT1 "x" rcGetRes).2 (by decide)
      (by decide)⟩⟩

/-- Claim C8's counterexample: a `get` on a session with no active
transaction does not return a recoverable NoActiveTransaction error result
— it panics (the command produces no result at all, aborting the process),
via the nil-pointer dereference inside `assertValidTransaction`. -/
theorem no_transaction_get_is_panic :
    execCommand newDatabase none (.get "x") = none := rfl

/-- Claim C8 (amended): `begin` on a session with an active transaction, and
`abort`, `commit`, `set`, `delete`, `get` on a session with no active
transaction, all violate internal assertions and panic (no result, process
aborts); no error value is returned and the session is not usable
afterwards. -/
theorem out_of_order_commands_panic (d : Database) (t : Transaction)
    (args : List String) (k v : String) :
    execCommand d none .abort = none ∧
    execCommand d none .commit = none ∧
    execCommand d none (.set k v) = none ∧
    execCommand d none (.del k) = none ∧
    execCommand d none (.get k) = none ∧
    execCommand d (some t) (.begin args) = none :=
  ⟨rfl, rfl, rfl, rfl, rfl, rfl⟩

/-- Claim C9's counterexample: `begin` is executed with an explicit
isolation-level argument on a database whose default is Read Committed, yet
the created transaction carries Read Committed — the argument is ignored. -/
theorem begin_ignores_isolation_argument :
    (execCommand newDatabase none (.begin ["SnapshotIsolation"])).map
      (fun r => r.tx.map Transaction.isolation) =
      some (some .ReadCommittedIsolation) ∧
    Isolation.ReadCommittedIsolation ≠ .SnapshotIsolation :=
  ⟨by decide, by decide⟩

/-- Claim C9 (amended): `begin` ignores any supplied argument; every
transaction it creates carries the database's default isolation level. -/
theorem begin_uses_default_isolation (d : Database) (args : List String)
    (r : ExecResult) (h : execCommand d none (.begin args) = some r) :
    ∃ t, r.tx = some t ∧ t.isolation = d.defaultIsolation := by
  simp only [execCommand] at h
  cases hvt : validTx (newTransaction d).1 (some (newTransaction d).2) with
  | none => rw [hvt] at h; cases h
  | some t0 =>
    obtain ⟨hotx, -, -⟩ := validTx_some_inv _ _ t0 hvt
    injection hotx with he
    simp only [hvt] at h
    cases h
    exact ⟨t0, rfl, by rw [← he]; rfl⟩

theorem begin_uses_default_isolation_witness :
    execCommand newDatabase none (.begin ["Serializable"]) =
      some ⟨rcDb1, some rcT1, "1", none⟩ ∧
    ∃ t, (⟨rcDb1, some rcT1, "1", none⟩ : ExecResult).tx = some t ∧
      t.isolation = newDatabase.defaultIsolation :=
  ⟨by decide,
    begin_uses_default_isolation newDatabase ["Serializable"] _ (by decide)⟩

theorem snapshot_visibility_characterization_witness :
    (wTxRR.isolation = .RepeatableReadIsolation ∨
      wTxRR.isolation = .SnapshotIsolation ∨
      wTxRR.isolation = .SerializableIsolation) ∧
    (transactionState wDb wVal.txStartId).isSome = true ∧
    (0 < wVal.txEndId → (transactionState wDb wVal.txEndId).isSome = true) ∧
    (isvisible wDb wTxRR wVal = some true ↔
      (wVal.txStartId ≤ wTxRR.id ∧
       wVal.txStartId ∉ wTxRR.inprogress ∧
       (wVal.txStartId = wTxRR.id ∨ committedIn wDb wVal.txStartId = true) ∧
       wVal.txEndId ≠ wTxRR.id ∧
       (0 < wVal.txEndId →
         ¬(wVal.txEndId < wTxRR.id ∧ committedIn wDb wVal.txEndId = true ∧
           wVal.txEndId ∉ wTxRR.inprogress)))) :=
  ⟨Or.inl rfl, by decide, by decide,
    snapshot_visibility_characterization wDb wTxRR wVal (Or.inl rfl)
      (by decide) (by decide)⟩

theorem read_committed_visibility_characterization_witness :
    wTxRC.isolation = .ReadCommittedIsolation ∧
    (0 < wVal.txEndId → (transactionState wDb wVal.txEndId).isSome = true) ∧
    (isvisible wDb wTxRC wVal = some true ↔
      ((wVal.txStartId = wTxRC.id ∨ committedIn wDb wVal.txStartId = true) ∧
       wVal.txEndId ≠ wTxRC.id ∧
       (wVal.txEndId = 0 ∨ committedIn wDb wVal.txEndId = false))) :=
  ⟨rfl, by decide,
    read_committed_visibility_characterization wDb wTxRC wVal rfl
      (by decide)⟩

theorem self_ended_version_never_visible_witness :
    wValSelf.txStartId = wValSelf.txEndId ∧ 0 < wValSelf.txStartId ∧
    (transactionState wDb wValSelf.txStartId).isSome = true ∧
    isvisible wDb wTxRC wValSelf = some false :=
  ⟨rfl, by decide, by decide,
    self_ended_version_never_visible wDb wTxRC wValSelf rfl (by decide)
      (by decide)⟩

theorem commit_always_resolves_witness :
    execCommand rcDb1 (some rcT1) .commit = some cCommitRes ∧
    (∃ rec, transactionState cCommitRes.db rcT1.id = some rec ∧
      rec.state ≠ .InProgressTransaction ∧
      ((cCommitRes.err = some .writeConflict ∨
        cCommitRes.err = some .serializationConflict) →
        rec.state = .AbortedTransaction)) :=
  ⟨by decide, commit_always_resolves rcDb1 rcT1 cCommitRes (by decide)⟩

theorem own_writes_read_back_witness :
    0 < rcT1.id ∧ rcT1.id ∉ rcT1.inprogress ∧
    (∃ rec, transactionState rcDb1 rcT1.id = some rec ∧
      rec.state = .InProgressTransaction) ∧
    (∀ u ∈ storeGet rcDb1 "x", (isvisible rcDb1 rcT1 u).isSome) ∧
    ((∃ r, execThen rcDb1 (some rcT1) (.set "x" "hey") (.get "x") = some r ∧
      r.out = "hey" ∧ r.err = none) ∧
    (∃ r, execThen rcDb1 (some rcT1) (.del "x") (.get "x") = some r ∧
      r.err = some .keyNotFound)) :=
  ⟨by decide, by decide, ⟨rcT1, rfl, rfl⟩, by decide,
    own_writes_read_back rcDb1 rcT1 "x" "hey" (by decide) (by decide)
      ⟨rcT1, rfl, rfl⟩ (by decide)⟩
